import Mathlib

/-!
Shallow embedding of the abaculus tiling/stitching engine (src/lib/index.js), together
with the options/defaults front end, and proofs of the specification claims about it.

JavaScript numbers are modelled as rationals (ℚ): every arithmetic operation the
embedded code performs (+, -, *, /, Math.floor, Math.round, %) is exact on the
rationals it is actually applied to.  `Math.floor` is `Int.floor`, `Math.round` is
floor of x + 1/2 (JS rounds half toward +infinity), and the JS `%` operator on
integer-valued numbers is `Int.tmod` (remainder with the sign of the dividend).

The external sphericalmercator projection (an npm dependency, not part of this
repository) is abstracted: bbox-handling functions take the two already-projected
corner pixel points as arguments, and the whole-pipeline function takes the
projection itself as a function parameter.  Likewise the external @carto/mapnik
`blend` compositor is a function parameter of `stitchTiles`, and the caller-supplied
tile source `getTile` is a function parameter returning `Except`.
-/

namespace Abaculus

/-- JS `Math.round`: round half toward positive infinity. -/
def jsRound (q : ℚ) : ℤ := ⌊q + 1/2⌋

/-- A location in world pixel space (JS object `{x, y}` of numbers). -/
structure PixelPoint where
  x : ℚ
  y : ℚ
deriving DecidableEq, Repr

/-- Output canvas dimensions (JS object `{width, height}` of numbers). -/
structure Dim where
  width : ℚ
  height : ℚ
deriving DecidableEq, Repr

/-- A slippy-map tile address `{z, x, y}` as produced by `tileList`. -/
structure TileAddress where
  z : ℕ
  x : ℤ
  y : ℤ
deriving DecidableEq, Repr

/-- A per-tile canvas offset `{x, y}` as produced by `offsetList` (already rounded). -/
structure TileOffset where
  x : ℤ
  y : ℤ
deriving DecidableEq, Repr

/-- One raw enumerated grid cell `{x: column, y: row}` pushed by `coordinates`. -/
structure GridCell where
  x : ℤ
  y : ℤ
deriving DecidableEq, Repr

/-- The errors thrown across src/lib/index.js, one constructor per `throw` site
(`invalidGetTile` = 'Invalid function for getting tiles', `noCoordinates` =
'No coordinates provided.', `invalidExtent` = 'Incorrect coordinates', `tooLarge` =
'Desired image is too large.', `emptyGrid` = 'No coords object', `noTiles` =
'No tiles to stitch'), plus wrappers for errors propagated from the tile source and
from the external compositor, and `missingDimensions` for the TypeError JS raises
when the center path reads `options.dimensions.width` off an absent object. -/
inductive AbaculusError where
  | invalidGetTile
  | noCoordinates
  | invalidExtent
  | tooLarge
  | emptyGrid
  | noTiles
  | missingDimensions
  | tileFetch (code : ℕ)
  | blendFailed (code : ℕ)
deriving DecidableEq, Repr

/-- `pointToTile` (src/lib/index.js:210-215): pixel point to fractional tile-grid
coordinates `(column, row)`. -/
def pointToTile (point : PixelPoint) (tileSize : ℚ) : ℚ × ℚ :=
  (point.x / tileSize, point.y / tileSize)

/-- `getTileCoordinateFromPointInPixels` (src/lib/index.js:172-196): the tile-grid
coordinate `(column, row)` of a canvas point, with the row clamped into
`[0, 2^zoom)` by the two successive `if` statements of the source. -/
def getTileCoordinateFromPointInPixels (center point : PixelPoint) (dims : Dim)
    (tileSize scale : ℚ) (zoom : ℕ) : ℤ × ℤ :=
  let size : ℚ := (⌊tileSize * scale⌋ : ℤ)
  let maxTilesInRow : ℤ := 2 ^ zoom
  let centerTile := pointToTile center tileSize
  let offsetColumn : ℚ := (point.x - dims.width / 2) / size
  let offsetRow : ℚ := (point.y - dims.height / 2) / size
  let column : ℤ := ⌊centerTile.1 + offsetColumn⌋
  let row : ℤ := ⌊centerTile.2 + offsetRow⌋
  let row : ℤ := if row < 0 then 0 else row
  let row : ℤ := if row ≥ maxTilesInRow then maxTilesInRow - 1 else row
  (column, row)

/-- The integer interval `[a..b]` as a list (`for (let i = a; i <= b; i++)`). -/
def intRange (a b : ℤ) : List ℤ :=
  (List.range (b + 1 - a).toNat).map (fun i : ℕ => a + (i : ℤ))

/-- The nested column/row loop of `coordinates` (src/lib/index.js:156-163):
column-major enumeration, rows ascending within each column. -/
def coordinatesList (zoom : ℕ) (scale : ℚ) (center : PixelPoint) (dims : Dim)
    (tileSize : ℚ) : List GridCell :=
  let topLeft := getTileCoordinateFromPointInPixels center ⟨0, 0⟩ dims tileSize scale zoom
  let bottomRight :=
    getTileCoordinateFromPointInPixels center ⟨dims.width, dims.height⟩ dims tileSize scale zoom
  (intRange topLeft.1 bottomRight.1).flatMap (fun column =>
    (intRange topLeft.2 bottomRight.2).map (fun row => ⟨column, row⟩))

/-- `coordinates` (src/lib/index.js:150-170): the enumeration plus the
`if (!coords.length) throw new Error('No coords object')` guard. -/
def coordinates (zoom : ℕ) (scale : ℚ) (center : PixelPoint) (dims : Dim)
    (tileSize : ℚ) : Except AbaculusError (List GridCell) :=
  let coords := coordinatesList zoom scale center dims tileSize
  if coords = [] then .error .emptyGrid else .ok coords

/-- The column-wrapping step inside `tileList` (src/lib/index.js:119-124):
JS `%` is the truncated remainder (`Int.tmod`), and a negative remainder is
shifted up by `maxTilesInRow`. -/
def wrapColumn (zoom : ℕ) (column : ℤ) : ℤ :=
  let maxTilesInRow : ℤ := 2 ^ zoom
  let c := Int.tmod column maxTilesInRow
  if c < 0 then maxTilesInRow + c else c

/-- The body of the `map` in `tileList` (src/lib/index.js:113-131): a raw grid
cell becomes a tile address with the column wrapped. -/
def tileOfCell (zoom : ℕ) (cell : GridCell) : TileAddress :=
  ⟨zoom, wrapColumn zoom cell.x, cell.y⟩

/-- `abaculus.tileList` (src/lib/index.js:110-132). -/
def tileList (zoom : ℕ) (scale : ℚ) (center : PixelPoint) (dims : Dim)
    (tileSize : ℚ) : Except AbaculusError (List TileAddress) :=
  (coordinates zoom scale center dims tileSize).map (fun cells =>
    cells.map (tileOfCell zoom))

/-- `getOffsetFromCenterInPixels` (src/lib/index.js:198-208). -/
def getOffsetFromCenterInPixels (center : PixelPoint) (cell : GridCell) (dims : Dim)
    (tileSize scale : ℚ) : TileOffset :=
  let size : ℚ := (⌊tileSize * scale⌋ : ℤ)
  let centerTile := pointToTile center tileSize
  ⟨jsRound (dims.width / 2 + size * ((cell.x : ℚ) - centerTile.1)),
   jsRound (dims.height / 2 + size * ((cell.y : ℚ) - centerTile.2))⟩

/-- `abaculus.offsetList` (src/lib/index.js:134-148). -/
def offsetList (zoom : ℕ) (scale : ℚ) (center : PixelPoint) (dims : Dim)
    (tileSize : ℚ) : Except AbaculusError (List TileOffset) :=
  (coordinates zoom scale center dims tileSize).map (fun cells =>
    cells.map (fun cell => getOffsetFromCenterInPixels center cell dims tileSize scale))

/-- `abaculus.getCenterInPixelsFromBbox` (src/lib/index.js:52-63), with the external
sphericalmercator projection abstracted: `bottomLeft`/`topRight` are the two
already-projected corners `px([w,s])` and `px([e,n])`. -/
def getCenterInPixelsFromBbox (bottomLeft topRight : PixelPoint) : PixelPoint :=
  let width := topRight.x - bottomLeft.x
  let height := bottomLeft.y - topRight.y
  ⟨topRight.x - width / 2, topRight.y + height / 2⟩

/-- `abaculus.getDimensionsFromBbox` (src/lib/index.js:75-95), corners
pre-projected as in `getCenterInPixelsFromBbox`. -/
def getDimensionsFromBbox (bottomLeft topRight : PixelPoint) (scale limit : ℚ) :
    Except AbaculusError Dim :=
  let width := topRight.x - bottomLeft.x
  let height := bottomLeft.y - topRight.y
  if width ≤ 0 ∨ height ≤ 0 then .error .invalidExtent
  else
    let w : ℤ := jsRound (width * scale)
    let h : ℤ := jsRound (height * scale)
    if (w : ℚ) ≥ limit ∨ (h : ℚ) ≥ limit then .error .tooLarge
    else .ok ⟨(w : ℚ), (h : ℚ)⟩

/-- `abaculus.scaleDimensions` (src/lib/index.js:97-108). -/
def scaleDimensions (dims : Dim) (scale limit : ℚ) : Except AbaculusError Dim :=
  let width : ℤ := jsRound (dims.width * scale)
  let height : ℤ := jsRound (dims.height * scale)
  if (width : ℚ) ≥ limit ∨ (height : ℚ) ≥ limit then .error .tooLarge
  else .ok ⟨(width : ℚ), (height : ℚ)⟩

/-- The bbox branch of the abaculus pipeline's center/dimension resolution
(src/lib/index.js:13-21): the center is computed by `getCenterInPixelsFromBbox`
(which never throws) and the dimensions by `getDimensionsFromBbox`; a degenerate
bbox therefore makes the resolution as a whole fail before any center is returned. -/
def resolveFromBbox (bottomLeft topRight : PixelPoint) (scale limit : ℚ) :
    Except AbaculusError (PixelPoint × Dim) :=
  let center := getCenterInPixelsFromBbox bottomLeft topRight
  (getDimensionsFromBbox bottomLeft topRight scale limit).map (fun dims => (center, dims))

/-- What a tile source delivers to its callback on success:
`callback(null, tile, headers, stats)`.  `statsRender` is the optional
`stats.render` field (`none` = absent). -/
structure SourceTile (β η : Type) where
  buffer : β
  headers : η
  statsRender : Option ℚ
deriving DecidableEq

/-- A fetched tile as assembled by `getTiles` (src/lib/index.js:256-261):
`{ buffer: tile, stats }`. -/
structure FetchedTile (β : Type) where
  buffer : β
  statsRender : Option ℚ
deriving DecidableEq

/-- Aggregate stats returned by a stitch (src/lib/index.js:235-238). -/
structure StitchStats where
  tiles : ℕ
  renderAvg : ℤ
deriving DecidableEq, Repr

/-- `calculateStats` (src/lib/index.js:230-241): `tile.stats.render || 0` summed,
divided by the tile count, and rounded. -/
def calculateStats {β : Type} (tiles : List (FetchedTile β)) : StitchStats :=
  let renderTotal : ℚ := (tiles.map (fun t => t.statsRender.getD 0)).sum
  ⟨tiles.length, jsRound (renderTotal / tiles.length)⟩

/-- `getTiles` (src/lib/index.js:256-261).  `promisify(getTile)` resolves with only
the FIRST success value the source passes to its callback (the buffer); the
`.then((tile, headers, stats = {}) => ...)` callback receives that single value, so
`headers` is `undefined` and `stats` falls back to its default `{}` — the fetched
tile's stats record is therefore always empty, whatever the source reported. -/
def getTiles {β η : Type} (coords : List TileAddress)
    (getTile : TileAddress → Except ℕ (SourceTile β η)) :
    List (Except ℕ (FetchedTile β)) :=
  coords.map (fun c => (getTile c).map (fun t => ⟨t.buffer, none⟩))

/-- `Promise.all` over an ordered list of settled fetches: all results in request
order, or the first (lowest-index) rejection's error. -/
def collectAll {α : Type} : List (Except ℕ α) → Except ℕ (List α)
  | [] => .ok []
  | (.error e) :: _ => .error e
  | (.ok a) :: rest => (collectAll rest).map (fun l => a :: l)

/-- One positioned tile handed to the compositor: `{buffer, x, y}`
(src/lib/index.js:244-246). -/
structure PositionedTile (β : Type) where
  buffer : β
  x : ℤ
  y : ℤ

/-- The options object handed to the external `blend` compositor
(src/lib/index.js:249, `reencode: true` is implicit and constant). -/
structure BlendOptions where
  format : String
  quality : Option ℚ
  width : ℚ
  height : ℚ

/-- The pairing step of `blendTiles` (src/lib/index.js:244-246): each buffer is
spread together with the offset at the same index. -/
def positionTiles {β : Type} (tiles : List (FetchedTile β)) (offsets : List TileOffset) :
    List (PositionedTile β) :=
  List.zipWith (fun (t : FetchedTile β) (o : TileOffset) => ⟨t.buffer, o.x, o.y⟩) tiles offsets

/-- `{image, stats}` returned by `stitchTiles`. -/
structure StitchResult (ι : Type) where
  image : ι
  stats : StitchStats

/-- `abaculus.stitchTiles` (src/lib/index.js:217-228) together with `blendTiles`
(243-254): await all fetches (rejecting on the first failed one), guard against an
empty list, compute stats, and invoke the external compositor once on the full
positioned list.  The compositor `blend` is the external @carto/mapnik collaborator,
passed as a function. -/
def stitchTiles {β η ι : Type} (coords : List TileAddress) (offsets : List TileOffset)
    (dims : Dim) (format : String) (quality : Option ℚ)
    (getTile : TileAddress → Except ℕ (SourceTile β η))
    (blend : List (PositionedTile β) → BlendOptions → Except ℕ ι) :
    Except AbaculusError (StitchResult ι) :=
  match collectAll (getTiles coords getTile) with
  | .error e => .error (.tileFetch e)
  | .ok tiles =>
    if tiles.length = 0 then .error .noTiles
    else
      let stats := calculateStats tiles
      match blend (positionTiles tiles offsets) ⟨format, quality, dims.width, dims.height⟩ with
      | .error e => .error (.blendFailed e)
      | .ok image => .ok ⟨image, stats⟩

/-- A caller-supplied geographic center `{x: lng, y: lat}`. -/
structure LngLat where
  x : ℚ
  y : ℚ
deriving DecidableEq, Repr

/-- A `[west, south, east, north]` bounding box. -/
structure Bbox where
  west : ℚ
  south : ℚ
  east : ℚ
  north : ℚ
deriving DecidableEq, Repr

/-- The options object accepted by `abaculus` (src/lib/index.js:9-50); `none`
models an absent (undefined) field.  The tile getter's type is abstract (`γ`). -/
structure Options (γ : Type) where
  getTile : Option γ
  center : Option LngLat
  bbox : Option Bbox
  dimensions : Option Dim
  zoom : Option ℕ
  scale : Option ℚ
  format : Option String
  quality : Option ℚ
  limit : Option ℚ
  tileSize : Option ℚ

/-- The validated, defaulted options produced by `defaults`. -/
structure ResolvedOptions (γ : Type) where
  getTile : γ
  zoom : ℕ
  scale : ℚ
  format : String
  quality : Option ℚ
  limit : ℚ
  tileSize : ℚ

/-- JS `options.field || default` for a numeric field: an absent OR zero (falsy)
value falls back to the default. -/
def orFalsy (v : Option ℚ) (d : ℚ) : ℚ :=
  match v with
  | none => d
  | some s => if s = 0 then d else s

/-- `defaults` (src/lib/index.js:32-50): reject a missing tile getter, then reject
missing coordinates (neither `center` nor `bbox`), then fill defaults. -/
def defaults {γ : Type} (o : Options γ) : Except AbaculusError (ResolvedOptions γ) :=
  match o.getTile with
  | none => .error .invalidGetTile
  | some g =>
    if o.center.isNone ∧ o.bbox.isNone then .error .noCoordinates
    else .ok
      { getTile := g
        zoom := o.zoom.getD 0
        scale := orFalsy o.scale 1
        format := match o.format with
                  | none => "png"
                  | some f => if f = "" then "png" else f
        quality := match o.quality with
                   | none => none
                   | some q => if q = 0 then none else some q
        limit := orFalsy o.limit 19008
        tileSize := orFalsy o.tileSize 256 }

/-- The center/dimension resolution phase of `abaculus` (src/lib/index.js:9-24):
`defaults`, then the bbox-or-center choice for the pixel center (lines 13-17) and
for the dimensions (lines 19-21).  The external sphericalmercator projection is
abstracted as `px`, taking zoom, scale, tileSize and a lng/lat pair (the source
builds `new SphericalMercator({size: tileSize * scale})` and calls `.px(p, zoom)`).
The `.error .noCoordinates` and `.error .missingDimensions` arms are the JS crashes
on fields `defaults` did not validate; the former is unreachable. -/
def abaculusGeometry {γ : Type} (px : ℕ → ℚ → ℚ → ℚ × ℚ → PixelPoint)
    (o : Options γ) : Except AbaculusError (PixelPoint × Dim) := do
  let d ← defaults o
  let proj := px d.zoom d.scale d.tileSize
  let center ← match o.bbox with
    | some b => pure (getCenterInPixelsFromBbox (proj (b.west, b.south)) (proj (b.east, b.north)))
    | none => match o.center with
      | some c => pure (proj (c.x, c.y))
      | none => Except.error AbaculusError.noCoordinates
  let dims ← match o.bbox with
    | some b => getDimensionsFromBbox (proj (b.west, b.south)) (proj (b.east, b.north)) d.scale d.limit
    | none => match o.dimensions with
      | some dd => scaleDimensions dd d.scale d.limit
      | none => Except.error AbaculusError.missingDimensions
  pure (center, dims)

/-- The constant tile source used for the stats claim: three tiles whose
callback reports render times 10, 20 and 30 (and buffer 0, headers 0). -/
def statsSource : TileAddress → Except ℕ (SourceTile ℕ ℕ) :=
  fun c => .ok ⟨0, 0, some (if c.x = 0 ∧ c.y = 0 then 10 else if c.x = 0 then 20 else 30)⟩

/-- A compositor stub that always succeeds with image 0. -/
def blendConst : List (PositionedTile ℕ) → BlendOptions → Except ℕ ℕ :=
  fun _ _ => .ok 0

/-- A tile source that fails with error code 7 on column 1 and succeeds elsewhere. -/
def failSource : TileAddress → Except ℕ (SourceTile ℕ ℕ) :=
  fun c => if c.x = 1 then .error 7 else .ok ⟨0, 0, none⟩

instance {ε α : Type} [DecidableEq ε] [DecidableEq α] : DecidableEq (Except ε α) := fun a b =>
  match a, b with
  | .ok x, .ok y =>
    if h : x = y then .isTrue (by rw [h]) else .isFalse (by intro hc; cases hc; exact h rfl)
  | .ok _, .error _ => .isFalse (by intro hc; cases hc)
  | .error _, .ok _ => .isFalse (by intro hc; cases hc)
  | .error x, .error y =>
    if h : x = y then .isTrue (by rw [h]) else .isFalse (by intro hc; cases hc; exact h rfl)

/-! ### Helper lemmas -/

theorem wrapColumn_eq_emod (zoom : ℕ) (c : ℤ) : wrapColumn zoom c = c % 2 ^ zoom := by
  show (if Int.tmod c (2 ^ zoom) < 0 then 2 ^ zoom + Int.tmod c (2 ^ zoom)
        else Int.tmod c (2 ^ zoom)) = c % 2 ^ zoom
  have hm : (0 : ℤ) < 2 ^ zoom := by positivity
  have hlt : c.tmod (2 ^ zoom) < 2 ^ zoom := Int.tmod_lt_of_pos c hm
  have hgt : -(2 ^ zoom) < c.tmod (2 ^ zoom) := by
    have h := Int.tmod_lt_of_pos (-c) hm
    have hneg : (-c).tmod (2 ^ zoom) = -(c.tmod (2 ^ zoom)) := by
      rw [Int.tmod_def, Int.tmod_def, Int.neg_tdiv]; ring
    omega
  have hcong : c.tmod (2 ^ zoom) % 2 ^ zoom = c % 2 ^ zoom := by
    conv_rhs => rw [← Int.tmod_add_tdiv c (2 ^ zoom)]
    simp [Int.add_mul_emod_self_left]
  split
  · rename_i h
    have h3 := Int.add_mul_emod_self_left (c.tmod (2 ^ zoom)) (2 ^ zoom) 1
    rw [mul_one] at h3
    have h2 : (2 ^ zoom + c.tmod (2 ^ zoom)) % 2 ^ zoom = c % 2 ^ zoom := by
      rw [add_comm, h3, hcong]
    rw [← h2]
    exact (Int.emod_eq_of_lt (by omega) (by omega)).symm
  · rename_i h
    rw [← hcong]
    exact (Int.emod_eq_of_lt (by omega) (by omega)).symm

theorem wrapColumn_mem (zoom : ℕ) (c : ℤ) :
    0 ≤ wrapColumn zoom c ∧ wrapColumn zoom c < 2 ^ zoom := by
  rw [wrapColumn_eq_emod]
  have hm : (0 : ℤ) < 2 ^ zoom := by positivity
  exact ⟨Int.emod_nonneg c (by omega), Int.emod_lt_of_pos c hm⟩

theorem intRange_length (a b : ℤ) : (intRange a b).length = (b + 1 - a).toNat := by
  simp [intRange]

theorem intRange_get (a b : ℤ) (i : ℕ) (h : i < (intRange a b).length) :
    (intRange a b).get ⟨i, h⟩ = a + i := by
  simp [intRange]

theorem intRange_mem (a b x : ℤ) : x ∈ intRange a b ↔ a ≤ x ∧ x ≤ b := by
  constructor
  · intro hx
    simp only [intRange, List.mem_map, List.mem_range] at hx
    obtain ⟨i, hi, rfl⟩ := hx
    omega
  · intro ⟨h1, h2⟩
    simp only [intRange, List.mem_map, List.mem_range]
    refine ⟨(x - a).toNat, by omega, by omega⟩

theorem intRange_ne_nil (a b : ℤ) (h : a ≤ b) : intRange a b ≠ [] := by
  intro hc
  have hlen := intRange_length a b
  rw [hc] at hlen
  simp only [List.length_nil] at hlen
  omega

theorem flatMap_const_length {α β : Type} (l : List α) (f : α → List β) (k : ℕ)
    (hk : ∀ a, (f a).length = k) : (l.flatMap f).length = l.length * k := by
  induction l with
  | nil => simp
  | cons a t ih => simp [List.flatMap_cons, hk, ih, Nat.succ_mul, Nat.add_comm]

theorem flatMap_const_get {α β : Type} (l : List α) (f : α → List β) (k : ℕ)
    (hk : ∀ a, (f a).length = k) (i j : ℕ) (hj : j < k) :
    ∀ (hi : i < l.length) (hidx : i * k + j < (l.flatMap f).length),
      (l.flatMap f).get ⟨i * k + j, hidx⟩ = (f (l.get ⟨i, hi⟩)).get ⟨j, by rw [hk]; exact hj⟩ := by
  induction l generalizing i with
  | nil => intro hi; cases (Nat.not_lt_zero i) hi
  | cons a t ih =>
    intro hi hidx
    cases i with
    | zero =>
      simp only [List.flatMap_cons, List.get_eq_getElem, Nat.zero_mul, Nat.zero_add]
      rw [List.getElem_append_left (by rw [hk]; exact hj)]
      simp
    | succ m =>
      have hmt : m < t.length := by simpa using hi
      have hidx2 : m * k + j < (t.flatMap f).length := by
        rw [flatMap_const_length t f k hk]
        calc m * k + j < m * k + k := by omega
        _ = (m + 1) * k := by ring
        _ ≤ t.length * k := Nat.mul_le_mul_right k hmt
      have hge : (f a).length ≤ (m + 1) * k + j := by
        have hk2 : k ≤ (m + 1) * k := by
          calc k = 1 * k := (one_mul k).symm
          _ ≤ (m + 1) * k := Nat.mul_le_mul_right k (by omega)
        rw [hk]; omega
      have harith : (m + 1) * k + j - (f a).length = m * k + j := by
        rw [hk]
        have : (m + 1) * k = m * k + k := by ring
        omega
      simp only [List.flatMap_cons, List.get_eq_getElem]
      rw [List.getElem_append_right hge]
      have := ih m hmt hidx2
      simp only [List.get_eq_getElem] at this
      simp only [harith]
      exact this

theorem coordinates_ok_iff (zoom : ℕ) (scale : ℚ) (center : PixelPoint) (dims : Dim)
    (tileSize : ℚ) (cells : List GridCell) :
    coordinates zoom scale center dims tileSize = .ok cells ↔
      coordinatesList zoom scale center dims tileSize = cells ∧ cells ≠ [] := by
  simp only [coordinates]
  split
  · rename_i h
    constructor
    · intro hc; cases hc
    · intro ⟨h1, h2⟩; exact absurd (h1 ▸ h) h2
  · rename_i h
    constructor
    · intro hc; cases hc; exact ⟨rfl, h⟩
    · intro ⟨h1, _⟩; rw [h1]

theorem tileList_ok_iff (zoom : ℕ) (scale : ℚ) (center : PixelPoint) (dims : Dim)
    (tileSize : ℚ) (ts : List TileAddress) :
    tileList zoom scale center dims tileSize = .ok ts ↔
      coordinatesList zoom scale center dims tileSize ≠ [] ∧
      ts = (coordinatesList zoom scale center dims tileSize).map (tileOfCell zoom) := by
  unfold tileList
  cases h : coordinates zoom scale center dims tileSize with
  | error e =>
    simp only [Except.map]
    simp only [coordinates] at h
    constructor
    · intro hc; cases hc
    · intro ⟨h1, _⟩
      split at h
      · rename_i h2; exact absurd h2 h1
      · cases h
  | ok cells =>
    rw [coordinates_ok_iff] at h
    simp only [Except.map, h.1]
    constructor
    · intro hc
      cases hc
      exact ⟨h.1 ▸ h.2, rfl⟩
    · intro ⟨_, h2⟩; rw [h2]

theorem offsetList_ok_iff (zoom : ℕ) (scale : ℚ) (center : PixelPoint) (dims : Dim)
    (tileSize : ℚ) (os : List TileOffset) :
    offsetList zoom scale center dims tileSize = .ok os ↔
      coordinatesList zoom scale center dims tileSize ≠ [] ∧
      os = (coordinatesList zoom scale center dims tileSize).map
        (fun cell => getOffsetFromCenterInPixels center cell dims tileSize scale) := by
  unfold offsetList
  cases h : coordinates zoom scale center dims tileSize with
  | error e =>
    simp only [Except.map]
    simp only [coordinates] at h
    constructor
    · intro hc; cases hc
    · intro ⟨h1, _⟩
      split at h
      · rename_i h2; exact absurd h2 h1
      · cases h
  | ok cells =>
    rw [coordinates_ok_iff] at h
    simp only [Except.map, h.1]
    constructor
    · intro hc
      cases hc
      exact ⟨h.1 ▸ h.2, rfl⟩
    · intro ⟨_, h2⟩; rw [h2]

/-! ### Concrete evaluations at the repository's own test input
(zoom 5, scale 4, tileSize 256, center pixel (4096, 4096), canvas 1824 x 1832) -/

theorem cells_eval1 : coordinatesList 5 4 ⟨4096, 4096⟩ ⟨1824, 1832⟩ 256 =
    [⟨15, 15⟩, ⟨15, 16⟩, ⟨16, 15⟩, ⟨16, 16⟩] := by
  simp only [coordinatesList, getTileCoordinateFromPointInPixels, pointToTile, intRange]
  norm_num
  decide

theorem tileList_eval1 : tileList 5 4 ⟨4096, 4096⟩ ⟨1824, 1832⟩ 256 =
    .ok [⟨5, 15, 15⟩, ⟨5, 15, 16⟩, ⟨5, 16, 15⟩, ⟨5, 16, 16⟩] := by
  simp only [tileList, coordinates, cells_eval1]
  decide

theorem offsetList_eval1 : offsetList 5 4 ⟨4096, 4096⟩ ⟨1824, 1832⟩ 256 =
    .ok [⟨-112, -108⟩, ⟨-112, 916⟩, ⟨912, -108⟩, ⟨912, 916⟩] := by
  simp only [offsetList, coordinates, cells_eval1]
  rw [if_neg (by simp)]
  norm_num [getOffsetFromCenterInPixels, pointToTile, jsRound, Except.map]

/-! ### Claims -/

/-- C1: for zoom=5, scale=4, tileSize=256, pixel center (4096, 4096) and dimensions
1824 x 1832, `tileList` returns exactly the tile addresses (5,15,15), (5,15,16),
(5,16,15), (5,16,16) in that order, and `offsetList` returns exactly the offsets
(-112,-108), (-112,916), (912,-108), (912,916) in the same order. -/
theorem claimC1_concrete_lists :
    tileList 5 4 ⟨4096, 4096⟩ ⟨1824, 1832⟩ 256 =
      .ok [⟨5, 15, 15⟩, ⟨5, 15, 16⟩, ⟨5, 16, 15⟩, ⟨5, 16, 16⟩] ∧
    offsetList 5 4 ⟨4096, 4096⟩ ⟨1824, 1832⟩ 256 =
      .ok [⟨-112, -108⟩, ⟨-112, 916⟩, ⟨912, -108⟩, ⟨912, 916⟩] :=
  ⟨tileList_eval1, offsetList_eval1⟩

/-- C2: whenever `tileList` and `offsetList` both succeed on the same input they
return lists of equal length; position i of each is derived (by `tileOfCell`
resp. `getOffsetFromCenterInPixels`) from the same enumerated grid cell, and the
enumeration is column-major with rows ascending within each column: the cell at
flat index ci * nRows + ri is (topLeft.column + ci, topLeft.row + ri). -/
theorem claimC2_index_alignment (zoom : ℕ) (scale : ℚ) (center : PixelPoint) (dims : Dim)
    (tileSize : ℚ) (ts : List TileAddress) (os : List TileOffset)
    (ht : tileList zoom scale center dims tileSize = .ok ts)
    (ho : offsetList zoom scale center dims tileSize = .ok os) :
    ts.length = os.length ∧
    (∀ (i : ℕ) (hi : i < (coordinatesList zoom scale center dims tileSize).length)
       (hti : i < ts.length) (hoi : i < os.length),
       ts.get ⟨i, hti⟩ =
         tileOfCell zoom ((coordinatesList zoom scale center dims tileSize).get ⟨i, hi⟩) ∧
       os.get ⟨i, hoi⟩ =
         getOffsetFromCenterInPixels center
           ((coordinatesList zoom scale center dims tileSize).get ⟨i, hi⟩) dims tileSize scale) ∧
    (∀ tl br : ℤ × ℤ,
      tl = getTileCoordinateFromPointInPixels center ⟨0, 0⟩ dims tileSize scale zoom →
      br = getTileCoordinateFromPointInPixels center ⟨dims.width, dims.height⟩
             dims tileSize scale zoom →
      ∀ ci ri : ℕ, ci < (br.1 + 1 - tl.1).toNat → ri < (br.2 + 1 - tl.2).toNat →
        ∀ (hidx : ci * (br.2 + 1 - tl.2).toNat + ri <
            (coordinatesList zoom scale center dims tileSize).length),
          (coordinatesList zoom scale center dims tileSize).get
              ⟨ci * (br.2 + 1 - tl.2).toNat + ri, hidx⟩ =
            ⟨tl.1 + ci, tl.2 + ri⟩) := by
  rw [tileList_ok_iff] at ht
  rw [offsetList_ok_iff] at ho
  obtain ⟨-, hts⟩ := ht
  obtain ⟨-, hos⟩ := ho
  refine ⟨by rw [hts, hos]; simp, ?_, ?_⟩
  · intro i hi hti hoi
    constructor
    · simp only [hts, List.get_eq_getElem, List.getElem_map]
    · simp only [hos, List.get_eq_getElem, List.getElem_map]
  · intro tl br htl hbr ci ri hci hri hidx
    have hk : ∀ c : ℤ, ((intRange tl.2 br.2).map (fun row => (⟨c, row⟩ : GridCell))).length =
        (br.2 + 1 - tl.2).toNat := by
      intro c
      simp [intRange_length]
    have hcells : coordinatesList zoom scale center dims tileSize =
        (intRange tl.1 br.1).flatMap (fun column =>
          (intRange tl.2 br.2).map (fun row => ⟨column, row⟩)) := by
      simp only [coordinatesList, ← htl, ← hbr]
    have hci2 : ci < (intRange tl.1 br.1).length := by rw [intRange_length]; exact hci
    have hidx2 : ci * (br.2 + 1 - tl.2).toNat + ri <
        ((intRange tl.1 br.1).flatMap (fun column =>
          (intRange tl.2 br.2).map (fun row => (⟨column, row⟩ : GridCell)))).length := by
      rw [← hcells]; exact hidx
    have := flatMap_const_get (intRange tl.1 br.1)
      (fun column => (intRange tl.2 br.2).map (fun row => (⟨column, row⟩ : GridCell)))
      ((br.2 + 1 - tl.2).toNat) (fun c => hk c) ci ri hri hci2 hidx2
    have hgoal := this
    rw [intRange_get] at hgoal
    simp only [List.get_eq_getElem, List.getElem_map] at hgoal
    have hri2 : ri < (intRange tl.2 br.2).length := by rw [intRange_length]; exact hri
    have hinner : (intRange tl.2 br.2)[ri] = tl.2 + ri := by
      have := intRange_get tl.2 br.2 ri hri2
      simpa [List.get_eq_getElem] using this
    rw [hinner] at hgoal
    simp only [List.get_eq_getElem, hcells]
    simpa [List.get_eq_getElem] using hgoal

/-- C2 witness: at the concrete input of C1 the two lists have equal length. -/
theorem claimC2_witness :
    ([⟨5, 15, 15⟩, ⟨5, 15, 16⟩, ⟨5, 16, 15⟩, ⟨5, 16, 16⟩] : List TileAddress).length =
      ([⟨-112, -108⟩, ⟨-112, 916⟩, ⟨912, -108⟩, ⟨912, 916⟩] : List TileOffset).length :=
  (claimC2_index_alignment 5 4 ⟨4096, 4096⟩ ⟨1824, 1832⟩ 256 _ _
    tileList_eval1 offsetList_eval1).1

/-- C3: every tile address returned by `tileList` has x in [0, 2^zoom), and x is
exactly the raw enumerated column reduced modulo 2^zoom (hence congruent to it);
in particular the wrap used by `tileList` sends raw column -1 to 1 at zoom 1. -/
theorem claimC3_column_wrap (zoom : ℕ) (scale : ℚ) (center : PixelPoint) (dims : Dim)
    (tileSize : ℚ) (ts : List TileAddress)
    (ht : tileList zoom scale center dims tileSize = .ok ts) :
    (∀ t ∈ ts, 0 ≤ t.x ∧ t.x < 2 ^ zoom) ∧
    (∀ (i : ℕ) (hti : i < ts.length)
       (hi : i < (coordinatesList zoom scale center dims tileSize).length),
       (ts.get ⟨i, hti⟩).x =
         ((coordinatesList zoom scale center dims tileSize).get ⟨i, hi⟩).x % 2 ^ zoom) ∧
    wrapColumn 1 (-1) = 1 := by
  rw [tileList_ok_iff] at ht
  obtain ⟨-, hts⟩ := ht
  refine ⟨?_, ?_, by decide⟩
  · intro t hmem
    rw [hts] at hmem
    obtain ⟨cell, -, rfl⟩ := List.mem_map.mp hmem
    exact wrapColumn_mem zoom cell.x
  · intro i hti hi
    simp only [hts, List.get_eq_getElem, List.getElem_map, tileOfCell]
    exact wrapColumn_eq_emod zoom _

/-- C3 witness: applying the wrap theorem at the concrete input of C1. -/
theorem claimC3_witness :
    0 ≤ (⟨5, 15, 15⟩ : TileAddress).x ∧ (⟨5, 15, 15⟩ : TileAddress).x < 2 ^ 5 :=
  (claimC3_column_wrap 5 4 ⟨4096, 4096⟩ ⟨1824, 1832⟩ 256 _ tileList_eval1).1
    ⟨5, 15, 15⟩ (by simp)

theorem rowClamp_mem (center point : PixelPoint) (dims : Dim) (tileSize scale : ℚ)
    (zoom : ℕ) :
    0 ≤ (getTileCoordinateFromPointInPixels center point dims tileSize scale zoom).2 ∧
    (getTileCoordinateFromPointInPixels center point dims tileSize scale zoom).2 < 2 ^ zoom := by
  have hpow : (0 : ℤ) < 2 ^ zoom := by positivity
  simp only [getTileCoordinateFromPointInPixels]
  split
  · omega
  · split <;> omega

theorem intRange_nodup (a b : ℤ) : (intRange a b).Nodup := by
  refine List.Nodup.map ?_ (List.nodup_range _)
  intro i j hij
  simp only [add_right_inj] at hij
  exact_mod_cast hij

theorem cells_mem_iff (zoom : ℕ) (scale : ℚ) (center : PixelPoint) (dims : Dim)
    (tileSize : ℚ) (cell : GridCell) :
    cell ∈ coordinatesList zoom scale center dims tileSize ↔
      ((getTileCoordinateFromPointInPixels center ⟨0, 0⟩ dims tileSize scale zoom).1 ≤ cell.x ∧
       cell.x ≤ (getTileCoordinateFromPointInPixels center ⟨dims.width, dims.height⟩
         dims tileSize scale zoom).1 ∧
       (getTileCoordinateFromPointInPixels center ⟨0, 0⟩ dims tileSize scale zoom).2 ≤ cell.y ∧
       cell.y ≤ (getTileCoordinateFromPointInPixels center ⟨dims.width, dims.height⟩
         dims tileSize scale zoom).2) := by
  simp only [coordinatesList, List.mem_flatMap, List.mem_map]
  constructor
  · intro ⟨column, hcol, r, hr, hcell⟩
    rw [intRange_mem] at hcol
    rw [intRange_mem] at hr
    cases hcell
    exact ⟨hcol.1, hcol.2, hr.1, hr.2⟩
  · intro ⟨h1, h2, h3, h4⟩
    exact ⟨cell.x, (intRange_mem _ _ _).mpr ⟨h1, h2⟩,
      cell.y, (intRange_mem _ _ _).mpr ⟨h3, h4⟩, rfl⟩

theorem cells_nodup (zoom : ℕ) (scale : ℚ) (center : PixelPoint) (dims : Dim)
    (tileSize : ℚ) : (coordinatesList zoom scale center dims tileSize).Nodup := by
  simp only [coordinatesList]
  rw [List.nodup_flatMap]
  constructor
  · intro x hx
    refine List.Nodup.map ?_ (intRange_nodup _ _)
    intro r1 r2 h
    cases h
    rfl
  · have hnd := intRange_nodup
      (getTileCoordinateFromPointInPixels center ⟨0, 0⟩ dims tileSize scale zoom).1
      (getTileCoordinateFromPointInPixels center ⟨dims.width, dims.height⟩
        dims tileSize scale zoom).1
    refine List.Pairwise.imp_of_mem ?_ hnd
    intro c1 c2 hm1 hm2 hne
    simp only [Function.onFun]
    intro cell hcell1 hcell2
    simp only [List.mem_map] at hcell1 hcell2
    obtain ⟨r1, -, hcell1⟩ := hcell1
    obtain ⟨r2, -, hcell2⟩ := hcell2
    rw [← hcell1] at hcell2
    cases hcell2
    exact hne rfl

/-! Concrete evaluation at the repository test input zoom=2, scale=1,
center pixel (623, 552), canvas 1000 x 1000, tileSize 256: the raw corner rows
are 0 and 4, the world has rows 0..3, and the bottom corner row is clamped to 3
before enumeration, giving 5 columns x 4 rows = 20 cells. -/

theorem cells_eval2 : coordinatesList 2 1 ⟨623, 552⟩ ⟨1000, 1000⟩ 256 =
    [⟨0, 0⟩, ⟨0, 1⟩, ⟨0, 2⟩, ⟨0, 3⟩,
     ⟨1, 0⟩, ⟨1, 1⟩, ⟨1, 2⟩, ⟨1, 3⟩,
     ⟨2, 0⟩, ⟨2, 1⟩, ⟨2, 2⟩, ⟨2, 3⟩,
     ⟨3, 0⟩, ⟨3, 1⟩, ⟨3, 2⟩, ⟨3, 3⟩,
     ⟨4, 0⟩, ⟨4, 1⟩, ⟨4, 2⟩, ⟨4, 3⟩] := by
  simp only [coordinatesList, getTileCoordinateFromPointInPixels, pointToTile, intRange]
  norm_num
  decide

theorem tileList_eval2 : tileList 2 1 ⟨623, 552⟩ ⟨1000, 1000⟩ 256 =
    .ok [⟨2, 0, 0⟩, ⟨2, 0, 1⟩, ⟨2, 0, 2⟩, ⟨2, 0, 3⟩,
         ⟨2, 1, 0⟩, ⟨2, 1, 1⟩, ⟨2, 1, 2⟩, ⟨2, 1, 3⟩,
         ⟨2, 2, 0⟩, ⟨2, 2, 1⟩, ⟨2, 2, 2⟩, ⟨2, 2, 3⟩,
         ⟨2, 3, 0⟩, ⟨2, 3, 1⟩, ⟨2, 3, 2⟩, ⟨2, 3, 3⟩,
         ⟨2, 0, 0⟩, ⟨2, 0, 1⟩, ⟨2, 0, 2⟩, ⟨2, 0, 3⟩] := by
  simp only [tileList, coordinates, cells_eval2]
  decide

/-- C4 counterexample: at zoom=2, scale=1, center pixel (623, 552), canvas
1000 x 1000, tileSize 256 (an input from the repository's own test suite), the raw
bottom-right corner row, floor(552/256 + 500/256) = 4, lies outside the world's
rows [0, 2^2).  The claim says the boundary row y=3 is then repeated so that the
tile list keeps one entry per enumerated grid cell of the raw rectangular grid
(5 columns x 5 raw rows = 25 entries, y=3 twice per column).  The code instead
clamps the corner row to 3 before enumerating, so `tileList` returns 20 entries
and y=3 appears exactly once per column (5 times in total, and the tile (2,0,3)
exactly once among the unwrapped columns 0..3); the boundary row is never
repeated.  (The repository test suite asserts these same 20 entries.) -/
theorem claimC4_counterexample :
    ⌊(pointToTile ⟨623, 552⟩ 256).2 + (((1000 : ℚ) - (1000 : ℚ) / 2) /
        ((⌊(256 : ℚ) * 1⌋ : ℤ) : ℚ))⌋ = 4 ∧
    (2 : ℤ) ^ 2 ≤ 4 ∧
    ∃ ts, tileList 2 1 ⟨623, 552⟩ ⟨1000, 1000⟩ 256 = .ok ts ∧
      ts.length = 20 ∧ ¬ ts.length = 25 ∧
      (ts.filter (fun t => t.y == 3)).length = 5 ∧
      ts.count ⟨2, 1, 3⟩ = 1 := by
  refine ⟨?_, by norm_num, ?_⟩
  · simp only [pointToTile]
    norm_num
  · refine ⟨_, tileList_eval2, ?_, ?_, ?_, ?_⟩ <;> decide

/-- C4 amended: every tile address returned by `tileList` has y in [0, 2^zoom);
rows outside the world are clamped, not dropped, but the clamp is applied to the
two corner rows before enumeration, so a canvas extending past the top or bottom
of the world truncates the row range at the boundary row instead of repeating it:
the tile list is exactly the enumeration of the clamped rectangular grid mapped
through `tileOfCell`, with one entry per enumerated (post-clamp) grid cell (the
enumeration has no duplicate cells and contains every cell of the clamped
rectangle). -/
theorem claimC4_amended_row_clamp (zoom : ℕ) (scale : ℚ) (center : PixelPoint)
    (dims : Dim) (tileSize : ℚ) (ts : List TileAddress)
    (ht : tileList zoom scale center dims tileSize = .ok ts) :
    (∀ t ∈ ts, 0 ≤ t.y ∧ t.y < 2 ^ zoom) ∧
    ts = (coordinatesList zoom scale center dims tileSize).map (tileOfCell zoom) ∧
    (coordinatesList zoom scale center dims tileSize).Nodup ∧
    (∀ c r : ℤ,
      (getTileCoordinateFromPointInPixels center ⟨0, 0⟩ dims tileSize scale zoom).1 ≤ c →
      c ≤ (getTileCoordinateFromPointInPixels center ⟨dims.width, dims.height⟩
        dims tileSize scale zoom).1 →
      (getTileCoordinateFromPointInPixels center ⟨0, 0⟩ dims tileSize scale zoom).2 ≤ r →
      r ≤ (getTileCoordinateFromPointInPixels center ⟨dims.width, dims.height⟩
        dims tileSize scale zoom).2 →
      (⟨c, r⟩ : GridCell) ∈ coordinatesList zoom scale center dims tileSize) := by
  rw [tileList_ok_iff] at ht
  obtain ⟨-, hts⟩ := ht
  refine ⟨?_, hts, cells_nodup zoom scale center dims tileSize, ?_⟩
  · intro t hmem
    rw [hts] at hmem
    obtain ⟨cell, hcellmem, rfl⟩ := List.mem_map.mp hmem
    rw [cells_mem_iff] at hcellmem
    obtain ⟨-, -, h3, h4⟩ := hcellmem
    have htl := rowClamp_mem center ⟨0, 0⟩ dims tileSize scale zoom
    have hbr := rowClamp_mem center ⟨dims.width, dims.height⟩ dims tileSize scale zoom
    simp only [tileOfCell]
    constructor <;> omega
  · intro c r h1 h2 h3 h4
    rw [cells_mem_iff]
    exact ⟨h1, h2, h3, h4⟩

/-- C4 witness (for the amended claim): applying the clamp theorem at the
concrete input of C1. -/
theorem claimC4_witness :
    0 ≤ (⟨5, 15, 15⟩ : TileAddress).y ∧ (⟨5, 15, 15⟩ : TileAddress).y < 2 ^ 5 :=
  (claimC4_amended_row_clamp 5 4 ⟨4096, 4096⟩ ⟨1824, 1832⟩ 256 _ tileList_eval1).1
    ⟨5, 15, 15⟩ (by simp)

theorem corner_ordering (zoom : ℕ) (scale : ℚ) (center : PixelPoint) (dims : Dim)
    (tileSize : ℚ) (hw : 0 < dims.width) (hh : 0 < dims.height)
    (hsize : 1 ≤ ⌊tileSize * scale⌋) :
    (getTileCoordinateFromPointInPixels center ⟨0, 0⟩ dims tileSize scale zoom).1 ≤
      (getTileCoordinateFromPointInPixels center ⟨dims.width, dims.height⟩
        dims tileSize scale zoom).1 ∧
    (getTileCoordinateFromPointInPixels center ⟨0, 0⟩ dims tileSize scale zoom).2 ≤
      (getTileCoordinateFromPointInPixels center ⟨dims.width, dims.height⟩
        dims tileSize scale zoom).2 := by
  have hm : (0 : ℤ) < 2 ^ zoom := by positivity
  have hq : (0 : ℚ) < ((⌊tileSize * scale⌋ : ℤ) : ℚ) := by
    have : (0 : ℤ) < ⌊tileSize * scale⌋ := by omega
    exact_mod_cast this
  have hcol : ∀ pa pb : ℚ, pa ≤ pb →
      ⌊(pointToTile center tileSize).1 + (pa - dims.width / 2) /
          ((⌊tileSize * scale⌋ : ℤ) : ℚ)⌋ ≤
      ⌊(pointToTile center tileSize).1 + (pb - dims.width / 2) /
          ((⌊tileSize * scale⌋ : ℤ) : ℚ)⌋ := by
    intro pa pb hab
    apply Int.floor_mono
    have : (pa - dims.width / 2) / ((⌊tileSize * scale⌋ : ℤ) : ℚ) ≤
        (pb - dims.width / 2) / ((⌊tileSize * scale⌋ : ℤ) : ℚ) :=
      div_le_div_of_nonneg_right (by linarith) (le_of_lt hq)
    linarith
  have hrowraw : ∀ pa pb : ℚ, pa ≤ pb →
      ⌊(pointToTile center tileSize).2 + (pa - dims.height / 2) /
          ((⌊tileSize * scale⌋ : ℤ) : ℚ)⌋ ≤
      ⌊(pointToTile center tileSize).2 + (pb - dims.height / 2) /
          ((⌊tileSize * scale⌋ : ℤ) : ℚ)⌋ := by
    intro pa pb hab
    apply Int.floor_mono
    have : (pa - dims.height / 2) / ((⌊tileSize * scale⌋ : ℤ) : ℚ) ≤
        (pb - dims.height / 2) / ((⌊tileSize * scale⌋ : ℤ) : ℚ) :=
      div_le_div_of_nonneg_right (by linarith) (le_of_lt hq)
    linarith
  constructor
  · simp only [getTileCoordinateFromPointInPixels]
    exact hcol 0 dims.width (le_of_lt hw)
  · simp only [getTileCoordinateFromPointInPixels]
    have := hrowraw 0 dims.height (le_of_lt hh)
    split <;> split <;> omega

/-- C9: for every pixel center and strictly positive canvas dimensions (with a
positive integer scaled tile footprint, as every valid configuration has), the
grid enumeration is non-empty, so `coordinates` succeeds and its EmptyGrid branch
is unreachable; and unconditionally, `coordinates` raises EmptyGrid exactly when
the enumeration is empty. -/
theorem claimC9_nonempty_grid (zoom : ℕ) (scale : ℚ) (center : PixelPoint) (dims : Dim)
    (tileSize : ℚ) :
    (0 < dims.width → 0 < dims.height → 1 ≤ ⌊tileSize * scale⌋ →
      coordinatesList zoom scale center dims tileSize ≠ [] ∧
      coordinates zoom scale center dims tileSize =
        .ok (coordinatesList zoom scale center dims tileSize)) ∧
    (coordinates zoom scale center dims tileSize = .error .emptyGrid ↔
      coordinatesList zoom scale center dims tileSize = []) := by
  constructor
  · intro hw hh hsize
    obtain ⟨hc, hr⟩ := corner_ordering zoom scale center dims tileSize hw hh hsize
    have hmem : (⟨(getTileCoordinateFromPointInPixels center ⟨0, 0⟩ dims tileSize scale zoom).1,
        (getTileCoordinateFromPointInPixels center ⟨0, 0⟩ dims tileSize scale zoom).2⟩ :
        GridCell) ∈ coordinatesList zoom scale center dims tileSize := by
      rw [cells_mem_iff]
      exact ⟨le_refl _, hc, le_refl _, hr⟩
    have hne := List.ne_nil_of_mem hmem
    refine ⟨hne, ?_⟩
    simp only [coordinates]
    rw [if_neg hne]
  · simp only [coordinates]
    split
    · rename_i h
      simp [h]
    · rename_i h
      constructor
      · intro hc; cases hc
      · intro hc; exact absurd hc h

/-- C9 witness: at the concrete input of C1 the enumeration is non-empty and
`coordinates` succeeds. -/
theorem claimC9_witness :
    coordinatesList 5 4 ⟨4096, 4096⟩ ⟨1824, 1832⟩ 256 ≠ [] ∧
    coordinates 5 4 ⟨4096, 4096⟩ ⟨1824, 1832⟩ 256 =
      .ok (coordinatesList 5 4 ⟨4096, 4096⟩ ⟨1824, 1832⟩ 256) :=
  (claimC9_nonempty_grid 5 4 ⟨4096, 4096⟩ ⟨1824, 1832⟩ 256).1
    (by norm_num) (by norm_num) (by norm_num)

/-- C6: dimension resolution fails with TooLarge exactly when the scaled-and-rounded
width or height meets or exceeds the limit; with both strictly below the limit it
returns the rounded values.  The same holds on the bbox path once the projected
extent is positive. -/
theorem claimC6_dimension_limit (dims : Dim) (scale limit : ℚ)
    (bottomLeft topRight : PixelPoint) :
    (scaleDimensions dims scale limit = .error .tooLarge ↔
      ((jsRound (dims.width * scale) : ℤ) : ℚ) ≥ limit ∨
      ((jsRound (dims.height * scale) : ℤ) : ℚ) ≥ limit) ∧
    (((jsRound (dims.width * scale) : ℤ) : ℚ) < limit →
     ((jsRound (dims.height * scale) : ℤ) : ℚ) < limit →
      scaleDimensions dims scale limit =
        .ok ⟨((jsRound (dims.width * scale) : ℤ) : ℚ),
             ((jsRound (dims.height * scale) : ℤ) : ℚ)⟩) ∧
    (0 < topRight.x - bottomLeft.x → 0 < bottomLeft.y - topRight.y →
      (getDimensionsFromBbox bottomLeft topRight scale limit = .error .tooLarge ↔
        ((jsRound ((topRight.x - bottomLeft.x) * scale) : ℤ) : ℚ) ≥ limit ∨
        ((jsRound ((bottomLeft.y - topRight.y) * scale) : ℤ) : ℚ) ≥ limit) ∧
      (((jsRound ((topRight.x - bottomLeft.x) * scale) : ℤ) : ℚ) < limit →
       ((jsRound ((bottomLeft.y - topRight.y) * scale) : ℤ) : ℚ) < limit →
        getDimensionsFromBbox bottomLeft topRight scale limit =
          .ok ⟨((jsRound ((topRight.x - bottomLeft.x) * scale) : ℤ) : ℚ),
               ((jsRound ((bottomLeft.y - topRight.y) * scale) : ℤ) : ℚ)⟩)) := by
  refine ⟨?_, ?_, ?_⟩
  · simp only [scaleDimensions]
    split
    · rename_i h
      exact iff_of_true rfl h
    · rename_i h
      exact iff_of_false (by intro hc; cases hc) h
  · intro h1 h2
    simp only [scaleDimensions]
    rw [if_neg (by push_neg; exact ⟨h1, h2⟩)]
  · intro hx hy
    have hext : ¬(topRight.x - bottomLeft.x ≤ 0 ∨ bottomLeft.y - topRight.y ≤ 0) := by
      push_neg
      exact ⟨hx, hy⟩
    constructor
    · simp only [getDimensionsFromBbox]
      rw [if_neg hext]
      split
      · rename_i h
        exact iff_of_true rfl h
      · rename_i h
        exact iff_of_false (by intro hc; cases hc) h
    · intro h1 h2
      simp only [getDimensionsFromBbox]
      rw [if_neg hext, if_neg (by push_neg; exact ⟨h1, h2⟩)]

/-- C6 witness: at scale 1 and limit 19008, a 19007-wide canvas (limit - 1) is
accepted with its rounded values, and a 19008-wide canvas is rejected. -/
theorem claimC6_witness :
    scaleDimensions ⟨19007, 100⟩ 1 19008 = .ok ⟨19007, 100⟩ ∧
    scaleDimensions ⟨19008, 100⟩ 1 19008 = .error .tooLarge := by
  constructor
  · have h := (claimC6_dimension_limit ⟨19007, 100⟩ 1 19008 ⟨0, 0⟩ ⟨0, 0⟩).2.1
      (by norm_num [jsRound]) (by norm_num [jsRound])
    rw [h]
    norm_num [jsRound]
  · exact (claimC6_dimension_limit ⟨19008, 100⟩ 1 19008 ⟨0, 0⟩ ⟨0, 0⟩).1.mpr
      (Or.inl (by norm_num [jsRound]))

theorem getDimensionsFromBbox_ok_extent (bottomLeft topRight : PixelPoint)
    (scale limit : ℚ) (d : Dim)
    (h : getDimensionsFromBbox bottomLeft topRight scale limit = .ok d) :
    0 < topRight.x - bottomLeft.x ∧ 0 < bottomLeft.y - topRight.y := by
  simp only [getDimensionsFromBbox] at h
  split at h
  · cases h
  · rename_i hcond
    push_neg at hcond
    exact hcond

/-- C7: the pixel center computed from a bbox is the midpoint of the two projected
corners; if the projected width or height is non-positive the bbox resolution
pipeline fails with InvalidExtent (the center is never delivered), and whenever it
succeeds the delivered center is that midpoint and the extent was positive. -/
theorem claimC7_bbox_center (bottomLeft topRight : PixelPoint) (scale limit : ℚ) :
    getCenterInPixelsFromBbox bottomLeft topRight =
      ⟨(bottomLeft.x + topRight.x) / 2, (bottomLeft.y + topRight.y) / 2⟩ ∧
    (topRight.x - bottomLeft.x ≤ 0 ∨ bottomLeft.y - topRight.y ≤ 0 →
      resolveFromBbox bottomLeft topRight scale limit = .error .invalidExtent) ∧
    (∀ c d, resolveFromBbox bottomLeft topRight scale limit = .ok (c, d) →
      0 < topRight.x - bottomLeft.x ∧ 0 < bottomLeft.y - topRight.y ∧
      c = ⟨(bottomLeft.x + topRight.x) / 2, (bottomLeft.y + topRight.y) / 2⟩) := by
  have hmid : getCenterInPixelsFromBbox bottomLeft topRight =
      ⟨(bottomLeft.x + topRight.x) / 2, (bottomLeft.y + topRight.y) / 2⟩ := by
    simp only [getCenterInPixelsFromBbox, PixelPoint.mk.injEq]
    constructor <;> ring
  refine ⟨hmid, ?_, ?_⟩
  · intro h
    simp only [resolveFromBbox, getDimensionsFromBbox]
    rw [if_pos h]
    rfl
  · intro c d h
    simp only [resolveFromBbox] at h
    cases hdim : getDimensionsFromBbox bottomLeft topRight scale limit with
    | error e => rw [hdim] at h; cases h
    | ok dd =>
      rw [hdim] at h
      simp only [Except.map] at h
      injection h with hpair
      obtain ⟨h1, h2⟩ := getDimensionsFromBbox_ok_extent bottomLeft topRight scale limit dd hdim
      cases hpair
      exact ⟨h1, h2, hmid⟩

/-- C7 witness: a degenerate bbox (equal projected corners) fails with
InvalidExtent, and for corners (0,4), (4,0) the computed center is (2,2). -/
theorem claimC7_witness :
    resolveFromBbox ⟨0, 0⟩ ⟨0, 0⟩ 1 19008 = .error .invalidExtent ∧
    getCenterInPixelsFromBbox ⟨0, 4⟩ ⟨4, 0⟩ = ⟨2, 2⟩ := by
  constructor
  · exact (claimC7_bbox_center ⟨0, 0⟩ ⟨0, 0⟩ 1 19008).2.1 (Or.inl (by norm_num))
  · have h := (claimC7_bbox_center ⟨0, 4⟩ ⟨4, 0⟩ 1 19008).1
    rw [h]
    norm_num

theorem collectAll_ok_of_all_ok {α : Type} (l : List (Except ℕ α))
    (h : ∀ x ∈ l, ∃ a, x = .ok a) :
    ∃ as, collectAll l = .ok as ∧ as.length = l.length := by
  induction l with
  | nil => exact ⟨[], rfl, rfl⟩
  | cons x t ih =>
    obtain ⟨as, has, hlen⟩ := ih (fun y hy => h y (List.mem_cons_of_mem x hy))
    obtain ⟨a, rfl⟩ := h x (List.mem_cons_self x t)
    exact ⟨a :: as, by simp [collectAll, has, Except.map], by simp [hlen]⟩

theorem collectAll_error_of_mem {α : Type} (l : List (Except ℕ α))
    (h : ∃ x ∈ l, ∃ e, x = .error e) :
    ∃ e, collectAll l = .error e ∧ Except.error e ∈ l := by
  induction l with
  | nil => simp at h
  | cons x t ih =>
    cases x with
    | error e => exact ⟨e, by simp [collectAll], by simp⟩
    | ok a =>
      have h2 : ∃ y ∈ t, ∃ e, y = .error e := by
        obtain ⟨y, hy, e, hye⟩ := h
        rcases List.mem_cons.mp hy with h3 | h3
        · rw [h3] at hye; cases hye
        · exact ⟨y, h3, e, hye⟩
      obtain ⟨e, he, hmem⟩ := ih h2
      exact ⟨e, by simp [collectAll, he, Except.map], List.mem_cons_of_mem _ hmem⟩

theorem collectAll_error_unique {α : Type} (l : List (Except ℕ α)) (e : ℕ)
    (hmem : Except.error e ∈ l)
    (huniq : ∀ e2, Except.error e2 ∈ l → e2 = e) :
    collectAll l = .error e := by
  induction l with
  | nil => simp at hmem
  | cons x t ih =>
    cases x with
    | error e2 =>
      have he2 : e2 = e := huniq e2 (by simp)
      subst he2
      simp [collectAll]
    | ok a =>
      have hmem2 : Except.error e ∈ t := by
        rcases List.mem_cons.mp hmem with h3 | h3
        · cases h3
        · exact h3
      have ht := ih hmem2 (fun e2 he2 => huniq e2 (List.mem_cons_of_mem _ he2))
      simp [collectAll, ht, Except.map]

theorem getTiles_error_mem {β η : Type} (coords : List TileAddress)
    (getTile : TileAddress → Except ℕ (SourceTile β η)) (e : ℕ) :
    Except.error e ∈ getTiles coords getTile ↔ ∃ c ∈ coords, getTile c = .error e := by
  simp only [getTiles, List.mem_map]
  constructor
  · intro ⟨c, hc, hmap⟩
    refine ⟨c, hc, ?_⟩
    cases hg : getTile c with
    | error e2 =>
      rw [hg] at hmap
      simp only [Except.map] at hmap
      cases hmap
      rfl
    | ok v =>
      rw [hg] at hmap
      simp only [Except.map] at hmap
      cases hmap
  · intro ⟨c, hc, hg⟩
    refine ⟨c, hc, ?_⟩
    rw [hg]
    rfl

theorem getTiles_length {β η : Type} (coords : List TileAddress)
    (getTile : TileAddress → Except ℕ (SourceTile β η)) :
    (getTiles coords getTile).length = coords.length := by
  simp [getTiles]

/-- C5: stitchTiles is all-or-nothing.  If any tile fetch fails, the whole call
fails with a failing tile's error (and with THE failing tile's error when a single
tile is responsible) and no image is produced; if every fetch succeeds, the
outcome is exactly one invocation of the external compositor on the full
positioned tile list (of one tile per requested address), whose success or failure
the call returns. -/
theorem claimC5_all_or_nothing {β η ι : Type} (coords : List TileAddress)
    (offsets : List TileOffset) (dims : Dim) (format : String) (quality : Option ℚ)
    (getTile : TileAddress → Except ℕ (SourceTile β η))
    (blend : List (PositionedTile β) → BlendOptions → Except ℕ ι)
    (hne : coords ≠ []) :
    ((∃ c ∈ coords, ∃ e, getTile c = .error e) →
      ∃ e, (∃ c ∈ coords, getTile c = .error e) ∧
        stitchTiles coords offsets dims format quality getTile blend =
          .error (.tileFetch e)) ∧
    (∀ e, (∃ c ∈ coords, getTile c = .error e) →
      (∀ c ∈ coords, ∀ e2, getTile c = .error e2 → e2 = e) →
      stitchTiles coords offsets dims format quality getTile blend =
        .error (.tileFetch e)) ∧
    ((∀ c ∈ coords, ∃ v, getTile c = .ok v) →
      ∃ tiles : List (FetchedTile β),
        collectAll (getTiles coords getTile) = .ok tiles ∧
        tiles.length = coords.length ∧
        (∀ img, blend (positionTiles tiles offsets)
            ⟨format, quality, dims.width, dims.height⟩ = .ok img →
          stitchTiles coords offsets dims format quality getTile blend =
            .ok ⟨img, calculateStats tiles⟩) ∧
        (∀ e, blend (positionTiles tiles offsets)
            ⟨format, quality, dims.width, dims.height⟩ = .error e →
          stitchTiles coords offsets dims format quality getTile blend =
            .error (.blendFailed e))) := by
  refine ⟨?_, ?_, ?_⟩
  · intro ⟨c, hc, e, he⟩
    have hmem : ∃ x ∈ getTiles coords getTile, ∃ e2, x = .error e2 := by
      refine ⟨.error e, ?_, e, rfl⟩
      rw [getTiles_error_mem]
      exact ⟨c, hc, he⟩
    obtain ⟨e2, hcoll, hmem2⟩ := collectAll_error_of_mem _ hmem
    rw [getTiles_error_mem] at hmem2
    refine ⟨e2, hmem2, ?_⟩
    simp only [stitchTiles, hcoll]
  · intro e ⟨c, hc, he⟩ huniq
    have hmem : Except.error e ∈ getTiles coords getTile := by
      rw [getTiles_error_mem]
      exact ⟨c, hc, he⟩
    have huniq2 : ∀ e2, Except.error e2 ∈ getTiles coords getTile → e2 = e := by
      intro e2 hmem2
      rw [getTiles_error_mem] at hmem2
      obtain ⟨c2, hc2, he2⟩ := hmem2
      exact huniq c2 hc2 e2 he2
    have hcoll := collectAll_error_unique _ e hmem huniq2
    simp only [stitchTiles, hcoll]
  · intro hall
    have hallok : ∀ x ∈ getTiles coords getTile, ∃ a, x = .ok a := by
      intro x hx
      simp only [getTiles, List.mem_map] at hx
      obtain ⟨c, hc, rfl⟩ := hx
      obtain ⟨v, hv⟩ := hall c hc
      rw [hv]
      exact ⟨⟨v.buffer, none⟩, rfl⟩
    obtain ⟨tiles, hcoll, hlen⟩ := collectAll_ok_of_all_ok _ hallok
    rw [getTiles_length] at hlen
    have hlen0 : ¬ tiles.length = 0 := by
      rw [hlen]
      intro h0
      exact hne (List.length_eq_zero.mp h0)
    refine ⟨tiles, hcoll, hlen, ?_, ?_⟩
    · intro img hblend
      simp only [stitchTiles, hcoll]
      rw [if_neg hlen0]
      simp only [hblend]
    · intro e hblend
      simp only [stitchTiles, hcoll]
      rw [if_neg hlen0]
      simp only [hblend]

/-- C5 witness: with a source failing (only) on tile (0,1,0) with error 7, the
whole stitch fails with error 7. -/
theorem claimC5_witness :
    stitchTiles [⟨0, 0, 0⟩, ⟨0, 1, 0⟩] [⟨0, 0⟩, ⟨256, 0⟩] ⟨512, 256⟩ "png" none
      failSource blendConst = .error (.tileFetch 7) := by
  refine (claimC5_all_or_nothing [⟨0, 0, 0⟩, ⟨0, 1, 0⟩] [⟨0, 0⟩, ⟨256, 0⟩] ⟨512, 256⟩
      "png" none failSource blendConst (by simp)).2.1 7 ⟨⟨0, 1, 0⟩, by simp, by decide⟩ ?_
  intro c hc e2 he2
  rcases List.mem_cons.mp hc with h | h
  · subst h
    rw [show failSource ⟨0, 0, 0⟩ = .ok ⟨0, 0, none⟩ from by decide] at he2
    cases he2
  · rcases List.mem_cons.mp h with h2 | h2
    · subst h2
      rw [show failSource ⟨0, 1, 0⟩ = .error 7 from by decide] at he2
      cases he2
      rfl
    · simp at h2

/-- C8: the claim is right about `calculateStats` (three tiles with render stats
10, 20, 30 average to 20, and a missing field counts as 0), but the code's
`getTiles` adapter loses the source's stats before they reach it:
`promisify(getTile)` resolves with only the buffer and the `.then` callback
receives a single argument, so `stats` always falls back to `{}`.  Through
`stitchTiles` a source reporting render times 10, 20, 30 therefore yields
`renderAvg = 0`, not the claimed `round((10+20+30)/3) = 20`. -/
theorem claimC8_stats_discarded :
    (∃ r : StitchResult ℕ,
      stitchTiles [⟨1, 0, 0⟩, ⟨1, 0, 1⟩, ⟨1, 1, 0⟩] [⟨0, 0⟩, ⟨0, 256⟩, ⟨256, 0⟩]
        ⟨512, 512⟩ "png" none statsSource blendConst = .ok r ∧
      r.stats = ⟨3, 0⟩ ∧ ¬ r.stats.renderAvg = 20) ∧
    calculateStats ([⟨0, some 10⟩, ⟨0, some 20⟩, ⟨0, some 30⟩] : List (FetchedTile ℕ)) =
      ⟨3, 20⟩ ∧
    calculateStats ([⟨0, some 10⟩, ⟨0, none⟩, ⟨0, some 20⟩] : List (FetchedTile ℕ)) =
      ⟨3, 10⟩ := by
  refine ⟨⟨⟨0, 3, 0⟩, ?_, rfl, by decide⟩, ?_, ?_⟩
  · simp only [stitchTiles, getTiles, statsSource, List.map_cons, List.map_nil,
      Except.map, collectAll, blendConst, calculateStats, positionTiles, jsRound,
      Option.getD]
    norm_num
  · simp only [calculateStats, List.map_cons, List.map_nil, Option.getD, jsRound,
      StitchStats.mk.injEq, List.length_cons, List.length_nil]
    norm_num
  · simp only [calculateStats, List.map_cons, List.map_nil, Option.getD, jsRound,
      StitchStats.mk.injEq, List.length_cons, List.length_nil]
    norm_num

/-- C10: when an options object carries both `center` and `bbox` (plus a tile
getter), no configuration error is raised, the bbox is used for both the pixel
center and the dimensions, and the supplied `center` and `dimensions` are ignored
(the pipeline result does not depend on them); `defaults` raises its
configuration errors exactly when `getTile` is missing (invalidGetTile) or both
coordinate forms are missing (noCoordinates). -/
theorem claimC10_bbox_precedence {γ : Type} (px : ℕ → ℚ → ℚ → ℚ × ℚ → PixelPoint)
    (o : Options γ) :
    (∀ b g, o.bbox = some b → o.getTile = some g →
      (∃ r, defaults o = .ok r) ∧
      (∀ c0 d0, abaculusGeometry px { o with center := c0, dimensions := d0 } =
        abaculusGeometry px o) ∧
      (∀ r, defaults o = .ok r →
        abaculusGeometry px o =
          (getDimensionsFromBbox (px r.zoom r.scale r.tileSize (b.west, b.south))
              (px r.zoom r.scale r.tileSize (b.east, b.north)) r.scale r.limit).map
            (fun dims =>
              (getCenterInPixelsFromBbox
                (px r.zoom r.scale r.tileSize (b.west, b.south))
                (px r.zoom r.scale r.tileSize (b.east, b.north)), dims)))) ∧
    (defaults o = .error .invalidGetTile ↔ o.getTile = none) ∧
    (defaults o = .error .noCoordinates ↔
      (¬ o.getTile = none) ∧ o.center = none ∧ o.bbox = none) ∧
    ((∃ e, defaults o = .error e) ↔
      o.getTile = none ∨ (o.center = none ∧ o.bbox = none)) := by
  refine ⟨?_, ?_, ?_, ?_⟩
  · intro b g hb hg
    refine ⟨?_, ?_, ?_⟩
    · simp only [defaults, hg]
      rw [if_neg (by simp [hb])]
      exact ⟨_, rfl⟩
    · intro c0 d0
      simp [abaculusGeometry, defaults, hg, hb]
    · intro r hr
      cases hdim : getDimensionsFromBbox (px r.zoom r.scale r.tileSize (b.west, b.south))
          (px r.zoom r.scale r.tileSize (b.east, b.north)) r.scale r.limit with
      | error e =>
        simp [abaculusGeometry, hr, hb, hdim, Except.map, Except.bind, bind, Functor.map, pure, Except.pure]
      | ok dd =>
        simp [abaculusGeometry, hr, hb, hdim, Except.map, Except.bind, bind, Functor.map, pure, Except.pure]
  · cases hgt : o.getTile with
    | none => simp [defaults, hgt]
    | some g =>
      simp only [defaults, hgt]
      split
      · constructor
        · intro hc; cases hc
        · intro hc; cases hc
      · constructor
        · intro hc; cases hc
        · intro hc; cases hc
  · cases hgt : o.getTile with
    | none =>
      simp only [defaults, hgt]
      constructor
      · intro hc; cases hc
      · rintro ⟨hc, -⟩; exact absurd trivial hc
    | some g =>
      simp only [defaults, hgt]
      split
      · rename_i hcond
        obtain ⟨h1, h2⟩ := hcond
        constructor
        · intro _
          refine ⟨by simp, ?_, ?_⟩
          · exact Option.isNone_iff_eq_none.mp h1
          · exact Option.isNone_iff_eq_none.mp h2
        · intro _; rfl
      · rename_i hcond
        constructor
        · intro hc; cases hc
        · rintro ⟨-, h1, h2⟩
          exact absurd ⟨Option.isNone_iff_eq_none.mpr h1,
            Option.isNone_iff_eq_none.mpr h2⟩ hcond
  · cases hgt : o.getTile with
    | none =>
      simp only [defaults, hgt]
      constructor
      · intro _; exact Or.inl trivial
      · intro _; exact ⟨AbaculusError.invalidGetTile, rfl⟩
    | some g =>
      simp only [defaults, hgt]
      split
      · rename_i hcond
        obtain ⟨h1, h2⟩ := hcond
        constructor
        · intro _
          exact Or.inr ⟨Option.isNone_iff_eq_none.mp h1, Option.isNone_iff_eq_none.mp h2⟩
        · intro _; exact ⟨AbaculusError.noCoordinates, rfl⟩
      · rename_i hcond
        constructor
        · rintro ⟨e, he⟩; cases he
        · intro hc
          rcases hc with hc | ⟨h1, h2⟩
          · simp at hc
          · exact absurd ⟨Option.isNone_iff_eq_none.mpr h1,
              Option.isNone_iff_eq_none.mpr h2⟩ hcond

/-- C10 witness: a concrete options object carrying both a center and a bbox,
with the identity-like projection: no configuration error and the supplied center
is ignored. -/
theorem claimC10_witness :
    (∃ r, defaults (⟨some (), some ⟨3, 4⟩, some ⟨-1, -1, 1, 1⟩, some ⟨10, 10⟩,
        some 2, some 1, some "png", none, some 19008, some 256⟩ : Options Unit) = .ok r) ∧
    abaculusGeometry (fun _ _ _ p => ⟨p.1, p.2⟩)
        (⟨some (), some ⟨3, 4⟩, some ⟨-1, -1, 1, 1⟩, some ⟨10, 10⟩,
          some 2, some 1, some "png", none, some 19008, some 256⟩ : Options Unit) =
      abaculusGeometry (fun _ _ _ p => ⟨p.1, p.2⟩)
        (⟨some (), some ⟨99, 99⟩, some ⟨-1, -1, 1, 1⟩, none,
          some 2, some 1, some "png", none, some 19008, some 256⟩ : Options Unit) := by
  have h := (claimC10_bbox_precedence (fun _ _ _ p => ⟨p.1, p.2⟩)
    (⟨some (), some ⟨3, 4⟩, some ⟨-1, -1, 1, 1⟩, some ⟨10, 10⟩,
      some 2, some 1, some "png", none, some 19008, some 256⟩ : Options Unit)).1
    ⟨-1, -1, 1, 1⟩ () rfl rfl
  exact ⟨h.1, (h.2.1 (some ⟨99, 99⟩) none).symm⟩

end Abaculus
